import Mathlib

/-!
Verification of git-wait (src/main.rs): a command-line wrapper that, before
exec-ing `git`, looks for a `.git` directory by walking up from the current
directory and, when `.git/index.lock` exists, blocks on filesystem-change
notifications until the lock file is removed (or a timeout configured via the
`GIT_WAIT_TIMEOUT_MS` environment variable elapses).

Modelling conventions for the shallow embedding:

* A filesystem path is its list of components from the root (`Path`); the
  filesystem itself is abstracted as an existence predicate `Fs`
  (standing for `Path::exists`).
* The Rust loop in `traverse_to_git_dir` mutates a `PathBuf` by `push`,
  existence test and two `pop` calls.  We run the same loop by structural
  recursion on the reversed component list (`traverseRev`): dropping the head
  of the reversed list is exactly `PathBuf::pop`, which fails (ends the loop)
  on the root.  The function returns the final value of `dir`: on success the
  Rust code returns `true` leaving `dir` at `candidate/.git`, modelled as
  `some (candidate ++ [GIT_DIR_NAME])`; returning `false` is `none`.
* `std::env::var(TIMEOUT_ENV_VAR)` is abstracted as an `Option String`
  argument, `current_dir()` as an `Option Path` (with `none` for the error
  case), and the outcome of the `wait` call inside
  `maybe_wait_for_index_lock` as an `Except String Unit` argument.
* `maybe_wait_for_index_lock` returns `none` exactly where the Rust code
  panics (the out-of-bounds write `args[0] = ...` on an empty vector);
  otherwise `some` of the `Result` together with an instrumentation flag
  recording whether the lock waiter `wait` was invoked.
* The receive loop of `wait` consumes a trace of channel observations
  (`RecvOutcome`): a delivered event, an expiry of a full `recv_timeout`
  window, or the disconnection of the channel.  The loop functions return
  `none` when the code does not return within the given trace (it keeps
  waiting, or spins forever in the disconnected no-timeout case).
* `u64::from_str` (used by `str::parse` in `read_timeout_env_var`) is
  modelled by `parseU64`, including the `ParseIntError` display strings that
  the Rust code interpolates into its error message.
-/

namespace GitWait

/-- A filesystem path, as its list of components from the root
(the root itself is `[]`). -/
abbrev Path := List String

/-- The filesystem, abstracted as the existence predicate `Path::exists`. -/
abbrev Fs := Path → Bool

/-- Constant `INDEX_LOCK_NAME` from src/main.rs. -/
def INDEX_LOCK_NAME : String := "index.lock"

/-- Constant `GIT_DIR_NAME` from src/main.rs. -/
def GIT_DIR_NAME : String := ".git"

/-- Constant `TIMEOUT_ENV_VAR` from src/main.rs. -/
def TIMEOUT_ENV_VAR : String := "GIT_WAIT_TIMEOUT_MS"

/-- The loop body of `traverse_to_git_dir`, run on the reversed component
list of the current candidate directory (head = innermost component, so
taking the tail is `PathBuf::pop`, which fails exactly on `[]`, the root).
At each step the Rust code pushes `GIT_DIR_NAME`, tests existence, and on
success returns `true` with `dir` left at `candidate/.git`; otherwise it pops
twice and continues, returning `false` once at the top level. -/
def traverseRev (fs : Fs) : List String → Option Path
  | [] => if fs ([GIT_DIR_NAME]) then some ([GIT_DIR_NAME]) else none
  | x :: rest =>
    if fs ((x :: rest).reverse ++ [GIT_DIR_NAME]) then
      some ((x :: rest).reverse ++ [GIT_DIR_NAME])
    else
      traverseRev fs rest

/-- `traverse_to_git_dir` from src/main.rs (see `traverseRev` for the loop).
Returns the path of the `.git` entry it found, i.e. the final value of the
mutated `dir`, or `none` when the loop reaches the filesystem root without
finding one. -/
def traverse_to_git_dir (fs : Fs) (dir : Path) : Option Path :=
  traverseRev fs dir.reverse

/-- Numeric value of a list of decimal digits (48 is the code of the
character zero). -/
def digitsVal (ds : List Char) : Nat :=
  ds.foldl (fun a c => a * 10 + (c.toNat - 48)) 0

/-- Model of `u64::from_str` as invoked by `str::parse::<u64>()` in
`read_timeout_env_var`: an optional leading plus sign followed by at least
one decimal digit, with the result required to fit in 64 bits.  The error
strings are the `ParseIntError` display strings of the Rust standard
library. -/
def parseU64 (s : String) : Except String Nat :=
  match s.data with
  | [] => Except.error "cannot parse integer from empty string"
  | l =>
    let ds := match l with
      | '+' :: rest => rest
      | _ => l
    if ds.isEmpty then Except.error "invalid digit found in string"
    else if ds.all Char.isDigit then
      let v := digitsVal ds
      if v < 2 ^ 64 then Except.ok v
      else Except.error "number too large to fit in target type"
    else Except.error "invalid digit found in string"

/-- `read_timeout_env_var` from src/main.rs.  The environment is abstracted
as `envVal`, the value of `GIT_WAIT_TIMEOUT_MS` if set.  A set and parsable
value `n` yields `some n` (the Rust code wraps it in
`Duration::from_millis`, modelled as the raw millisecond count); an unset
variable yields `none`; a set but unparsable value is the error
`"timeout parse error: {e}"`. -/
def read_timeout_env_var (envVal : Option String) : Except String (Option Nat) :=
  match envVal with
  | some timeout =>
    match parseU64 timeout with
    | Except.ok n => Except.ok (some n)
    | Except.error e => Except.error ("timeout parse error: " ++ e)
  | none => Except.ok none

/-- The `notify::event::RemoveKind` enum. -/
inductive RemoveKind
  | any
  | file
  | folder
  | other
deriving DecidableEq, Repr

/-- The `notify::EventKind` enum, with the sub-kind retained only for
`Remove`, the only constructor the program compares against
(`EventKind::Remove(RemoveKind::File)`). -/
inductive EventKind
  | any
  | access
  | create
  | modify
  | remove (k : RemoveKind)
  | other
deriving DecidableEq, Repr

/-- A `notify::Event`: its kind and the paths it concerns. -/
structure Event where
  kind : EventKind
  paths : List Path
deriving DecidableEq, Repr

/-- One observation made by the receive loop of `wait` on the mpsc channel:
a delivered event, the expiry of a full `recv_timeout` window with no
delivery, or the disconnection of the channel (all senders dropped). -/
inductive RecvOutcome
  | ok (event : Event)
  | timeout
  | disconnected
deriving DecidableEq, Repr

/-- Outcome of setting up the watcher in `wait`: failure of
`RecommendedWatcher::new`, success of `watcher.watch`, or failure of
`watcher.watch` with kind `ErrorKind::PathNotFound` or any other kind. -/
inductive WatchSetup
  | newErr (msg : String)
  | ok
  | watchPathNotFound
  | watchErr (msg : String)
deriving DecidableEq, Repr

/-- The receive loop of `wait` when a finite timeout was supplied: each
iteration is `rx.recv_timeout(timeout)`.  A delivered event of kind
`Remove(File)` returns `Ok(())` (its paths are not examined); any other
event is discarded and the loop re-arms a fresh full-length `recv_timeout`;
a timeout expiry returns the error `"timed out!"`; a disconnected channel
returns the error `"broken channel"`.  `none` means the trace ended with the
loop still waiting. -/
def recvLoopTimeout : List RecvOutcome → Option (Except String Unit)
  | [] => none
  | RecvOutcome.ok event :: rest =>
    if event.kind = EventKind.remove RemoveKind.file then some (Except.ok ())
    else recvLoopTimeout rest
  | RecvOutcome.timeout :: _ => some (Except.error "timed out!")
  | RecvOutcome.disconnected :: _ => some (Except.error "broken channel")

/-- The receive loop of `wait` when no timeout was supplied: `for event in
&rx` inside `loop`.  A delivered event of kind `Remove(File)` returns
`Ok(())`; other events are discarded; a `timeout` trace entry is the lapse
of a timeout window with nothing delivered, which a blocking `recv` just
waits through; on disconnection the `for` ends, and the enclosing `loop`
restarts it forever, so the function never returns (`none`). -/
def recvLoopNoTimeout : List RecvOutcome → Option (Except String Unit)
  | [] => none
  | RecvOutcome.ok event :: rest =>
    if event.kind = EventKind.remove RemoveKind.file then some (Except.ok ())
    else recvLoopNoTimeout rest
  | RecvOutcome.timeout :: rest => recvLoopNoTimeout rest
  | RecvOutcome.disconnected :: _ => none

/-- `wait` from src/main.rs.  `path` is the watched lock path (used only to
establish the watch, whose outcome is abstracted as `setup`); `trace` is the
sequence of channel observations of the receive loop.  Watcher-creation
failure and watch failure map to the corresponding error strings, except a
watch failure of kind `PathNotFound`, which returns `Ok(())` (the lock
vanished between the existence check of the caller and the subscription).
`none` means the call does not return within the given trace. -/
def wait (path : Path) (setup : WatchSetup) (timeout : Option Nat)
    (trace : List RecvOutcome) : Option (Except String Unit) :=
  match setup with
  | WatchSetup.newErr msg =>
    some (Except.error ("unable to initialize file watcher: " ++ msg))
  | WatchSetup.watchPathNotFound => some (Except.ok ())
  | WatchSetup.watchErr msg =>
    some (Except.error ("unable to watch index.lock: " ++ msg))
  | WatchSetup.ok =>
    match timeout with
    | some _ => recvLoopTimeout trace
    | none => recvLoopNoTimeout trace

/-- The timed receive loop of `wait` (finite-timeout branch), instrumented
with the real time each `recv_timeout` call takes: a trace entry `(o, d)` is
an outcome `o` obtained after blocking for `d` milliseconds.  Returns the
result together with the total elapsed time until the loop returns.  The
`recv_timeout` contract makes `d` at least the configured timeout whenever
`o` is `timeout`; that is a hypothesis of the theorems, not baked in
here. -/
def recvLoopTimeoutTimed : List (RecvOutcome × Nat) → Option (Except String Unit) × Nat
  | [] => (none, 0)
  | (RecvOutcome.ok event, d) :: rest =>
    if event.kind = EventKind.remove RemoveKind.file then (some (Except.ok ()), d)
    else
      let r := recvLoopTimeoutTimed rest
      (r.1, d + r.2)
  | (RecvOutcome.timeout, d) :: _ => (some (Except.error "timed out!"), d)
  | (RecvOutcome.disconnected, d) :: _ => (some (Except.error "broken channel"), d)

/-- The event handler closure passed to `RecommendedWatcher::new` in `wait`:
`move |res| if let Ok(event) = res { tx.send(event).unwrap() }`.  Given the
sequence of `notify::Result` values delivered by the notification backend,
it forwards the events of the `Ok` results into the channel and silently
drops the `Err` results. -/
def watcherCallbackSends (raw : List (Except String Event)) : List RecvOutcome :=
  raw.filterMap (fun r =>
    match r with
    | Except.ok event => some (RecvOutcome.ok event)
    | Except.error _ => none)

deriving instance DecidableEq for Except

/-- Result of `maybe_wait_for_index_lock`, instrumented with whether the
lock waiter `wait` was invoked. -/
structure MWOut where
  result : Except String (List String)
  waitCalled : Bool
deriving DecidableEq, Repr

/-- `maybe_wait_for_index_lock` from src/main.rs.  `cwd` abstracts
`current_dir()` (`none` = error), `fs` the filesystem, `timeoutVar` the
value of the timeout environment variable, and `waitResult` the outcome of
the `wait` call (reached only on the branch that sets `waitCalled`).  The
function first overwrites argument 0 with `"git"`; on an empty vector that
write panics with an out-of-bounds index, modelled as `none`. -/
def maybe_wait_for_index_lock (cwd : Option Path) (fs : Fs) (timeoutVar : Option String)
    (waitResult : Except String Unit) (args : List String) : Option MWOut :=
  match args with
  | [] => none
  | _ :: rest =>
    let args := "git" :: rest
    match cwd with
    | none => some ⟨Except.error "unable to read current directory.", false⟩
    | some dir =>
      match traverse_to_git_dir fs dir with
      | some gitDir =>
        match read_timeout_env_var timeoutVar with
        | Except.error e => some ⟨Except.error e, false⟩
        | Except.ok _ =>
          if fs (gitDir ++ [INDEX_LOCK_NAME]) then
            match waitResult with
            | Except.ok _ => some ⟨Except.ok args, true⟩
            | Except.error e => some ⟨Except.error e, true⟩
          else some ⟨Except.ok args, false⟩
      | none => some ⟨Except.ok args, false⟩

/-- What `main` does with the result of `maybe_wait_for_index_lock`: run
`run_git_cmd` on the returned arguments, or print `"ERROR: {e}"` and exit
with status 1.  (If `run_git_cmd` itself returns an error, `main` likewise
prints it and exits 1; that happens after the handoff attempt and is beyond
this dispatch.) -/
inductive ProgResult
  | runGit (args : List String)
  | exit1 (msg : String)
deriving DecidableEq, Repr

/-- The top-level dispatch of `main` on the result of
`maybe_wait_for_index_lock`. -/
def mainDispatch (mw : Except String (List String)) : ProgResult :=
  match mw with
  | Except.ok args => ProgResult.runGit args
  | Except.error e => ProgResult.exit1 ("ERROR: " ++ e)

/-- The program name and argument vector `run_git_cmd` hands to `execvp`:
the program is element 0 of `args`, and the argument vector is `args`
itself, unmodified (a terminating null pointer is appended, which the list
model leaves implicit).  `none` where indexing `args[0]` would panic. -/
def run_git_cmd_argv (args : List String) : Option (String × List String) :=
  match args with
  | [] => none
  | program :: _ => some (program, args)

/-- A sample filesystem for witnesses: only the path a/.git exists. -/
def fsOnlyA : Fs := fun p => p == ["a", ".git"]

/-- A sample filesystem for counterexamples: only the path repo/.git exists
(in particular repo/.git/index.lock does not). -/
def fsGitNoLock : Fs := fun p => p == ["repo", ".git"]

/-- A sample filesystem for witnesses: only the path /.git exists. -/
def fsRootGit : Fs := fun p => p == [".git"]

/-- A sample watched lock path. -/
def lockP : Path := ["repo", ".git", "index.lock"]

/-- A remove-file event concerning a path other than the watched lock. -/
def strayRemove : Event := ⟨EventKind.remove RemoveKind.file, [["tmp", "other"]]⟩

/-- A remove-file event concerning the watched lock path. -/
def removeLockEv : Event := ⟨EventKind.remove RemoveKind.file, [lockP]⟩

/-- A modification event on the watched lock path (must be discarded by the
receive loop). -/
def modEv : Event := ⟨EventKind.modify, [lockP]⟩

/-- Whether a channel observation is a delivered event of kind
`Remove(File)` (the one observation that can end the wait); used to state
that a trace contains no lock-removal event. -/
def isRemoveFileEvent : RecvOutcome → Bool
  | RecvOutcome.ok event => event.kind == EventKind.remove RemoveKind.file
  | _ => false

/-- Helper for C1, on the reversed component list processed by
`traverseRev`: the loop returns `none` exactly when no candidate (the start
directory `rev.reverse` or any of its ancestors, i.e. any prefix
`rev.reverse.take k`) directly contains a `.git` entry, and on success it
returns the `.git` entry of the nearest such candidate (the one with the
largest `k`: every candidate strictly closer to the start lacks one). -/
theorem traverseRev_spec (fs : Fs) (rev : List String) :
    (traverseRev fs rev = none ↔
      ∀ k, k ≤ rev.length → fs (rev.reverse.take k ++ [GIT_DIR_NAME]) = false)
    ∧ (∀ p, traverseRev fs rev = some p →
        ∃ k, k ≤ rev.length ∧ p = rev.reverse.take k ++ [GIT_DIR_NAME] ∧ fs p = true ∧
          ∀ j, k < j → j ≤ rev.length → fs (rev.reverse.take j ++ [GIT_DIR_NAME]) = false) := by
  induction rev with
  | nil =>
    cases hf : fs [GIT_DIR_NAME] with
    | true =>
      refine ⟨⟨fun h => ?_, fun h => ?_⟩, fun p hp => ?_⟩
      · simp [traverseRev, hf] at h
      · have := h 0 (le_refl 0)
        simp [hf] at this
      · simp only [traverseRev, hf, if_true] at hp
        have hp2 : p = [GIT_DIR_NAME] := by
          cases hp
          rfl
        subst hp2
        refine ⟨0, le_refl 0, by simp, hf, ?_⟩
        intro j hj1 hj2
        simp only [List.length_nil] at hj2
        omega
    | false =>
      refine ⟨⟨fun h k hk => ?_, fun h => ?_⟩, fun p hp => ?_⟩
      · have hk0 : k = 0 := Nat.le_zero.mp hk
        subst hk0
        simpa using hf
      · simp [traverseRev, hf]
      · simp [traverseRev, hf] at hp
  | cons x rest ih =>
    obtain ⟨ih1, ih2⟩ := ih
    have htake_le : ∀ k, k ≤ rest.length →
        ((x :: rest).reverse).take k = (rest.reverse).take k := by
      intro k hk
      rw [List.reverse_cons]
      exact List.take_append_of_le_length (by simpa using hk)
    have htake_full : ((x :: rest).reverse).take (rest.length + 1) = (x :: rest).reverse := by
      have hlen : ((x :: rest).reverse).length = rest.length + 1 := by simp
      rw [← hlen, List.take_length]
    cases hf : fs ((x :: rest).reverse ++ [GIT_DIR_NAME]) with
    | true =>
      have hstep : traverseRev fs (x :: rest) = some ((x :: rest).reverse ++ [GIT_DIR_NAME]) := by
        simp only [traverseRev]
        rw [if_pos hf]
      refine ⟨⟨fun h => ?_, fun h => ?_⟩, fun p hp => ?_⟩
      · rw [hstep] at h
        exact absurd h (by simp)
      · have hcand := h (rest.length + 1) (by simp)
        rw [htake_full, hf] at hcand
        exact absurd hcand (by simp)
      · rw [hstep] at hp
        have hp2 : p = (x :: rest).reverse ++ [GIT_DIR_NAME] := by
          cases hp
          rfl
        subst hp2
        refine ⟨rest.length + 1, by simp, by rw [htake_full], hf, ?_⟩
        intro j hj1 hj2
        simp only [List.length_cons] at hj2
        omega
    | false =>
      have hstep : traverseRev fs (x :: rest) = traverseRev fs rest := by
        simp only [traverseRev]
        rw [if_neg (by rw [hf]; decide)]
      refine ⟨⟨fun h => ?_, fun h => ?_⟩, fun p hp => ?_⟩
      · rw [hstep] at h
        intro k hk
        simp only [List.length_cons] at hk
        rcases Nat.lt_or_ge k (rest.length + 1) with hlt | hge
        · have hk2 : k ≤ rest.length := by omega
          rw [htake_le k hk2]
          exact ih1.mp h k hk2
        · have hkeq : k = rest.length + 1 := by omega
          subst hkeq
          rw [htake_full]
          exact hf
      · rw [hstep]
        apply ih1.mpr
        intro k hk
        rw [← htake_le k hk]
        exact h k (by simp; omega)
      · rw [hstep] at hp
        obtain ⟨k, hk, hpk, hfp, hmax⟩ := ih2 p hp
        refine ⟨k, by simp; omega, ?_, hfp, ?_⟩
        · rw [htake_le k hk]
          exact hpk
        · intro j hj1 hj2
          simp only [List.length_cons] at hj2
          rcases Nat.lt_or_ge j (rest.length + 1) with hlt | hge
          · have hj3 : j ≤ rest.length := by omega
            rw [htake_le j hj3]
            exact hmax j hj1 hj3
          · have hjeq : j = rest.length + 1 := by omega
            subst hjeq
            rw [htake_full]
            exact hf

/-- C1: for every starting directory, `traverse_to_git_dir` returns
`"not found"` (`none`) exactly when no candidate from the start up to the
filesystem root (the prefixes `dir.take k`) directly contains an entry named
`.git`; and when it returns a path, that path is the `.git` entry of the
nearest candidate at or above the start containing one (every candidate
strictly nearer the start, `dir.take j` with `j > k`, has none). -/
theorem traverse_to_git_dir_correct (fs : Fs) (dir : Path) :
    (traverse_to_git_dir fs dir = none ↔
      ∀ k, k ≤ dir.length → fs (dir.take k ++ [GIT_DIR_NAME]) = false)
    ∧ (∀ p, traverse_to_git_dir fs dir = some p →
        ∃ k, k ≤ dir.length ∧ p = dir.take k ++ [GIT_DIR_NAME] ∧ fs p = true ∧
          ∀ j, k < j → j ≤ dir.length → fs (dir.take j ++ [GIT_DIR_NAME]) = false) := by
  have h := traverseRev_spec fs dir.reverse
  simpa [traverse_to_git_dir, List.reverse_reverse, List.length_reverse] using h

/-- C1 witness: on a concrete filesystem where only a/.git exists, starting
from a/b the locator finds it (so the not-found characterisation rules out
`none` at this input). -/
theorem traverse_to_git_dir_correct_witness :
    traverse_to_git_dir fsOnlyA ["a", "b"] = some ["a", ".git"]
    ∧ ¬ traverse_to_git_dir fsOnlyA ["a", "b"] = none := by
  have h := (traverse_to_git_dir_correct fsOnlyA ["a", "b"]).1
  refine ⟨by decide, fun hn => ?_⟩
  have h1 := h.mp hn 1 (by decide)
  exact absurd h1 (by decide)

/-- C2 counterexample: with a metadata directory found (repo/.git), the lock
file absent, but the timeout variable set to the unparsable value "abc",
`maybe_wait_for_index_lock` returns a parse error rather than the rewritten
arguments — refuting the claim that whenever the lock file does not exist
the arguments are returned successfully. -/
theorem lock_absent_not_success_cex :
    maybe_wait_for_index_lock (some ["repo"]) fsGitNoLock (some "abc") (Except.ok ())
        ["git-wait", "status"]
      = some ⟨Except.error "timeout parse error: invalid digit found in string", false⟩
    ∧ fsGitNoLock (["repo", ".git"] ++ [INDEX_LOCK_NAME]) = false := by
  decide

/-- C2 amended: if no metadata directory is found, `maybe_wait_for_index_lock`
returns the rewritten arguments successfully without calling the lock
waiter; likewise if a metadata directory is found, the timeout variable is
absent or parsable, and the lock file does not exist; and the lock waiter is
invoked only when a metadata directory is found, the timeout parses, and the
lock file exists.  (The unparsable-timeout case returns a configuration
error instead of the arguments, still without calling the waiter; see the
counterexample.) -/
theorem maybe_wait_fast_paths (dir : Path) (fs : Fs) (tv : Option String)
    (wres : Except String Unit) (a : String) (rest : List String) :
    (traverse_to_git_dir fs dir = none →
      maybe_wait_for_index_lock (some dir) fs tv wres (a :: rest)
        = some ⟨Except.ok ("git" :: rest), false⟩)
    ∧ (∀ g n, traverse_to_git_dir fs dir = some g →
        read_timeout_env_var tv = Except.ok n →
        fs (g ++ [INDEX_LOCK_NAME]) = false →
        maybe_wait_for_index_lock (some dir) fs tv wres (a :: rest)
          = some ⟨Except.ok ("git" :: rest), false⟩)
    ∧ (∀ out, maybe_wait_for_index_lock (some dir) fs tv wres (a :: rest) = some out →
        out.waitCalled = true →
        ∃ g n, traverse_to_git_dir fs dir = some g
          ∧ read_timeout_env_var tv = Except.ok n
          ∧ fs (g ++ [INDEX_LOCK_NAME]) = true) := by
  refine ⟨fun h => ?_, fun g n hg hn hl => ?_, fun out hout hcall => ?_⟩
  · simp [maybe_wait_for_index_lock, h]
  · simp [maybe_wait_for_index_lock, hg, hn, hl]
  · cases htrav : traverse_to_git_dir fs dir with
    | none =>
      have heq : maybe_wait_for_index_lock (some dir) fs tv wres (a :: rest)
          = some ⟨Except.ok ("git" :: rest), false⟩ := by
        simp [maybe_wait_for_index_lock, htrav]
      rw [heq] at hout
      rw [← Option.some.inj hout] at hcall
      simp at hcall
    | some g =>
      cases hrt : read_timeout_env_var tv with
      | error e =>
        have heq : maybe_wait_for_index_lock (some dir) fs tv wres (a :: rest)
            = some ⟨Except.error e, false⟩ := by
          simp [maybe_wait_for_index_lock, htrav, hrt]
        rw [heq] at hout
        rw [← Option.some.inj hout] at hcall
        simp at hcall
      | ok n =>
        by_cases hfl : fs (g ++ [INDEX_LOCK_NAME]) = true
        · exact ⟨g, n, rfl, rfl, hfl⟩
        · have heq : maybe_wait_for_index_lock (some dir) fs tv wres (a :: rest)
              = some ⟨Except.ok ("git" :: rest), false⟩ := by
            simp [maybe_wait_for_index_lock, htrav, hrt, hfl]
          rw [heq] at hout
          rw [← Option.some.inj hout] at hcall
          simp at hcall

/-- C2 witness: concrete no-metadata-directory run returning the rewritten
arguments without calling the waiter. -/
theorem maybe_wait_fast_paths_witness :
    maybe_wait_for_index_lock (some ["w"]) (fun _ => false) none (Except.ok ()) ("a" :: ["b"])
      = some ⟨Except.ok ["git", "b"], false⟩ :=
  (maybe_wait_fast_paths ["w"] (fun _ => false) none (Except.ok ()) "a" ["b"]).1 (by decide)

/-- C3: for every lock path, timeout and trace, if establishing the watch
fails because the watched path no longer exists (`ErrorKind::PathNotFound`)
then `wait` returns success, while a watch failure for any other reason, or
a failure to create the watcher at all, returns a fatal
watch-initialization error. -/
theorem wait_watch_init_behavior (p : Path) (timeout : Option Nat)
    (trace : List RecvOutcome) (msg : String) :
    wait p WatchSetup.watchPathNotFound timeout trace = some (Except.ok ())
    ∧ wait p (WatchSetup.watchErr msg) timeout trace
        = some (Except.error ("unable to watch index.lock: " ++ msg))
    ∧ wait p (WatchSetup.newErr msg) timeout trace
        = some (Except.error ("unable to initialize file watcher: " ++ msg)) :=
  ⟨rfl, rfl, rfl⟩

/-- C4 counterexample: a remove-file event whose paths do not mention the
watched lock path still ends the wait successfully, on both the bounded and
the unbounded receive loop — refuting the claim that the event must also
concern the watched path. -/
theorem remove_event_path_not_checked_cex :
    wait lockP WatchSetup.ok (some 5) [RecvOutcome.ok strayRemove] = some (Except.ok ())
    ∧ wait lockP WatchSetup.ok none [RecvOutcome.ok strayRemove] = some (Except.ok ())
    ∧ strayRemove.paths = [["tmp", "other"]]
    ∧ (["tmp", "other"] : Path) ≠ lockP := by
  decide

/-- C4 amended: a received event ends the wait successfully if and only if
its kind is `Remove(File)`; the event path is never examined (the result is
invariant under changing the paths of the event), and an event of any other
kind is discarded, the loop continuing exactly as without it. -/
theorem remove_event_kind_only (p : Path) (t : Nat) (event : Event) (rest : List RecvOutcome) :
    (event.kind = EventKind.remove RemoveKind.file →
      wait p WatchSetup.ok (some t) (RecvOutcome.ok event :: rest) = some (Except.ok ())
      ∧ wait p WatchSetup.ok none (RecvOutcome.ok event :: rest) = some (Except.ok ()))
    ∧ (event.kind ≠ EventKind.remove RemoveKind.file →
      wait p WatchSetup.ok (some t) (RecvOutcome.ok event :: rest)
        = wait p WatchSetup.ok (some t) rest
      ∧ wait p WatchSetup.ok none (RecvOutcome.ok event :: rest)
        = wait p WatchSetup.ok none rest)
    ∧ (∀ ps, wait p WatchSetup.ok (some t) (RecvOutcome.ok ⟨event.kind, ps⟩ :: rest)
        = wait p WatchSetup.ok (some t) (RecvOutcome.ok event :: rest)) := by
  refine ⟨fun hk => ⟨?_, ?_⟩, fun hk => ⟨?_, ?_⟩, fun ps => ?_⟩
  · simp [wait, recvLoopTimeout, hk]
  · simp [wait, recvLoopNoTimeout, hk]
  · simp [wait, recvLoopTimeout, hk]
  · simp [wait, recvLoopNoTimeout, hk]
  · simp [wait, recvLoopTimeout]

/-- C4 witness: a remove-file event on the watched path ends a concrete
bounded wait successfully. -/
theorem remove_event_kind_only_witness :
    wait lockP WatchSetup.ok (some 3) (RecvOutcome.ok removeLockEv :: [])
      = some (Except.ok ()) :=
  ((remove_event_kind_only lockP 3 removeLockEv []).1 rfl).1

/-- C5: given a finite timeout D, a trace with no lock-removal event and no
disconnection in which some `recv_timeout` window expires (the lock exists
and is never removed), the timed receive loop fails with the timeout error;
it does so no earlier than D after entering the bounded receive (each
`timeout` observation blocks for at least D by the `recv_timeout` contract,
a hypothesis here); `main` turns that error into an exit with status 1; and
the error propagates unchanged through `maybe_wait_for_index_lock` (the
timeout is terminal, never retried). -/
theorem wait_timeout_terminal (D : Nat) (trace : List (RecvOutcome × Nat))
    (hdur : ∀ q ∈ trace, q.1 = RecvOutcome.timeout → D ≤ q.2)
    (hnorm : ∀ q ∈ trace, isRemoveFileEvent q.1 = false)
    (hnodisc : ∀ q ∈ trace, q.1 ≠ RecvOutcome.disconnected)
    (hto : ∃ q ∈ trace, q.1 = RecvOutcome.timeout) :
    (recvLoopTimeoutTimed trace).1 = some (Except.error "timed out!")
    ∧ D ≤ (recvLoopTimeoutTimed trace).2
    ∧ mainDispatch (Except.error "timed out!") = ProgResult.exit1 "ERROR: timed out!"
    ∧ ∀ (dir : Path) (fs : Fs) (tv : Option String) (a : String)
        (argsRest : List String) (g : Path) (n : Option Nat),
        traverse_to_git_dir fs dir = some g →
        read_timeout_env_var tv = Except.ok n →
        fs (g ++ [INDEX_LOCK_NAME]) = true →
        maybe_wait_for_index_lock (some dir) fs tv (Except.error "timed out!") (a :: argsRest)
          = some ⟨Except.error "timed out!", true⟩ := by
  have key : ∀ (tr : List (RecvOutcome × Nat)),
      (∀ q ∈ tr, q.1 = RecvOutcome.timeout → D ≤ q.2) →
      (∀ q ∈ tr, isRemoveFileEvent q.1 = false) →
      (∀ q ∈ tr, q.1 ≠ RecvOutcome.disconnected) →
      (∃ q ∈ tr, q.1 = RecvOutcome.timeout) →
      (recvLoopTimeoutTimed tr).1 = some (Except.error "timed out!")
      ∧ D ≤ (recvLoopTimeoutTimed tr).2 := by
    intro tr
    induction tr with
    | nil =>
      intro _ _ _ hex
      simp at hex
    | cons q rest ih =>
      intro h1 h2 h3 hex
      obtain ⟨o, d⟩ := q
      cases o with
      | ok event =>
        have hkb : isRemoveFileEvent (RecvOutcome.ok event) = false :=
          h2 ⟨RecvOutcome.ok event, d⟩ (List.mem_cons_self _ _)
        have hkind : ¬ event.kind = EventKind.remove RemoveKind.file := by
          simp [isRemoveFileEvent] at hkb
          exact hkb
        have hrec := ih
          (fun q hq h => h1 q (List.mem_cons_of_mem _ hq) h)
          (fun q hq => h2 q (List.mem_cons_of_mem _ hq))
          (fun q hq => h3 q (List.mem_cons_of_mem _ hq))
          (by
            obtain ⟨q, hq, hqt⟩ := hex
            rcases List.mem_cons.mp hq with heq | hmem
            · rw [heq] at hqt
              simp at hqt
            · exact ⟨q, hmem, hqt⟩)
        simp only [recvLoopTimeoutTimed, if_neg hkind]
        exact ⟨hrec.1, le_trans hrec.2 (Nat.le_add_left _ _)⟩
      | timeout =>
        have hd : D ≤ d := h1 ⟨RecvOutcome.timeout, d⟩ (List.mem_cons_self _ _) rfl
        exact ⟨rfl, hd⟩
      | disconnected =>
        exact absurd rfl (h3 ⟨RecvOutcome.disconnected, d⟩ (List.mem_cons_self _ _))
  have h := key trace hdur hnorm hnodisc hto
  refine ⟨h.1, h.2, rfl, fun dir fs tv a argsRest g n hg hn hl => ?_⟩
  simp [maybe_wait_for_index_lock, hg, hn, hl]

/-- C5 witness: with D = 5, a discarded modification event taking 3, then a
timeout window of 7, the loop fails with the timeout error after elapsed
time at least 5. -/
theorem wait_timeout_terminal_witness :
    (recvLoopTimeoutTimed [(RecvOutcome.ok modEv, 3), (RecvOutcome.timeout, 7)]).1
      = some (Except.error "timed out!")
    ∧ 5 ≤ (recvLoopTimeoutTimed [(RecvOutcome.ok modEv, 3), (RecvOutcome.timeout, 7)]).2 := by
  have h := wait_timeout_terminal 5 [(RecvOutcome.ok modEv, 3), (RecvOutcome.timeout, 7)]
    (by decide) (by decide) (by decide) (by decide)
  exact ⟨h.1, h.2.1⟩

/-- C6 counterexample: with the timeout variable set to the unparsable value
"abc" but no metadata directory anywhere, `maybe_wait_for_index_lock`
returns the rewritten arguments successfully and `main` proceeds to the
handoff — the process does not exit with status 1, refuting the claim that
the configuration error is reported regardless of whether a metadata
directory exists.  (The upward traversal, a filesystem interaction, also
precedes the parse in the code.) -/
theorem timeout_unparsable_no_exit_cex :
    parseU64 "abc" = Except.error "invalid digit found in string"
    ∧ maybe_wait_for_index_lock (some ["h"]) (fun _ => false) (some "abc") (Except.ok ())
        ["w", "s"]
      = some ⟨Except.ok ["git", "s"], false⟩
    ∧ mainDispatch (Except.ok ["git", "s"]) = ProgResult.runGit ["git", "s"] := by
  decide

/-- C6 amended: when the timeout variable is set to an unparsable value and
a metadata directory is found, `maybe_wait_for_index_lock` returns the
configuration error without invoking the lock waiter — so before any
filesystem watch is established and before the lock file is checked — and
`main` exits with status 1. -/
theorem timeout_parse_error_before_watch (dir : Path) (fs : Fs) (v : String)
    (wres : Except String Unit) (a : String) (rest : List String) (g : Path) (e : String)
    (hg : traverse_to_git_dir fs dir = some g)
    (he : parseU64 v = Except.error e) :
    maybe_wait_for_index_lock (some dir) fs (some v) wres (a :: rest)
      = some ⟨Except.error ("timeout parse error: " ++ e), false⟩
    ∧ mainDispatch (Except.error ("timeout parse error: " ++ e))
      = ProgResult.exit1 ("ERROR: " ++ ("timeout parse error: " ++ e)) := by
  constructor
  · simp [maybe_wait_for_index_lock, hg, read_timeout_env_var, he]
  · rfl

/-- C6 witness: concrete run with /.git present and the unparsable timeout
value "zz". -/
theorem timeout_parse_error_before_watch_witness :
    maybe_wait_for_index_lock (some []) fsRootGit (some "zz") (Except.ok ()) ("w" :: ["s"])
      = some ⟨Except.error ("timeout parse error: " ++ "invalid digit found in string"), false⟩ :=
  (timeout_parse_error_before_watch [] fsRootGit "zz" (Except.ok ()) "w" ["s"] [".git"]
    "invalid digit found in string" (by decide) (by decide)).1

/-- C7 counterexample: with no timeout configured, a disconnected channel
does not produce the channel-closed error — the receive loop restarts
forever and `wait` never returns (`none` in the trace model) — refuting the
claim that the error is produced for every timeout configuration; with a
finite timeout it is produced. -/
theorem channel_close_no_timeout_cex :
    wait lockP WatchSetup.ok none [RecvOutcome.disconnected] = none
    ∧ wait lockP WatchSetup.ok (some 10) [RecvOutcome.disconnected]
        = some (Except.error "broken channel") := by
  decide

/-- C7 amended: after any number of discarded (non-removal) events, a
channel disconnection makes the bounded receive loop fail with the
channel-closed error `"broken channel"`, while the unbounded loop never
returns. -/
theorem channel_close_behavior (p : Path) (t : Nat) (pre : List Event)
    (rest : List RecvOutcome)
    (hpre : ∀ event ∈ pre, event.kind ≠ EventKind.remove RemoveKind.file) :
    wait p WatchSetup.ok (some t) (pre.map RecvOutcome.ok ++ RecvOutcome.disconnected :: rest)
      = some (Except.error "broken channel")
    ∧ wait p WatchSetup.ok none (pre.map RecvOutcome.ok ++ RecvOutcome.disconnected :: rest)
      = none := by
  have h1 : ∀ (es : List Event), (∀ event ∈ es, event.kind ≠ EventKind.remove RemoveKind.file) →
      recvLoopTimeout (es.map RecvOutcome.ok ++ RecvOutcome.disconnected :: rest)
        = some (Except.error "broken channel") := by
    intro es
    induction es with
    | nil => intro _; rfl
    | cons e es ihp =>
      intro h
      simp only [List.map_cons, List.cons_append, recvLoopTimeout]
      rw [if_neg (h e (List.mem_cons_self _ _))]
      exact ihp (fun ev hv => h ev (List.mem_cons_of_mem _ hv))
  have h2 : ∀ (es : List Event), (∀ event ∈ es, event.kind ≠ EventKind.remove RemoveKind.file) →
      recvLoopNoTimeout (es.map RecvOutcome.ok ++ RecvOutcome.disconnected :: rest) = none := by
    intro es
    induction es with
    | nil => intro _; rfl
    | cons e es ihp =>
      intro h
      simp only [List.map_cons, List.cons_append, recvLoopNoTimeout]
      rw [if_neg (h e (List.mem_cons_self _ _))]
      exact ihp (fun ev hv => h ev (List.mem_cons_of_mem _ hv))
  exact ⟨h1 pre hpre, h2 pre hpre⟩

/-- C7 witness: one discarded modification event followed by disconnection,
with timeout 10 and with no timeout. -/
theorem channel_close_behavior_witness :
    wait lockP WatchSetup.ok (some 10)
        ([modEv].map RecvOutcome.ok ++ RecvOutcome.disconnected :: [])
      = some (Except.error "broken channel")
    ∧ wait lockP WatchSetup.ok none
        ([modEv].map RecvOutcome.ok ++ RecvOutcome.disconnected :: [])
      = none :=
  channel_close_behavior lockP 10 [modEv] [] (by decide)

/-- C8: for every invocation with at least one argument, every successful
result of `maybe_wait_for_index_lock` (on the no-wait paths and the
post-wait path alike) is the original vector with element 0 overwritten by
`"git"` and elements 1..N unmodified and in order; `main` hands exactly that
vector to `run_git_cmd`, which passes it verbatim to `execvp` with element 0
as the program name. -/
theorem argv_rewrite (cwd : Option Path) (fs : Fs) (tv : Option String)
    (wres : Except String Unit) (a : String) (rest : List String) :
    (∀ out l, maybe_wait_for_index_lock cwd fs tv wres (a :: rest) = some out →
      out.result = Except.ok l → l = "git" :: rest)
    ∧ mainDispatch (Except.ok ("git" :: rest)) = ProgResult.runGit ("git" :: rest)
    ∧ run_git_cmd_argv ("git" :: rest) = some ("git", "git" :: rest) := by
  refine ⟨fun out l hout hl => ?_, rfl, rfl⟩
  cases cwd with
  | none =>
    have heq : maybe_wait_for_index_lock none fs tv wres (a :: rest)
        = some ⟨Except.error "unable to read current directory.", false⟩ := by
      simp [maybe_wait_for_index_lock]
    rw [heq] at hout
    rw [← Option.some.inj hout] at hl
    simp at hl
  | some dir =>
    cases htrav : traverse_to_git_dir fs dir with
    | none =>
      have heq : maybe_wait_for_index_lock (some dir) fs tv wres (a :: rest)
          = some ⟨Except.ok ("git" :: rest), false⟩ := by
        simp [maybe_wait_for_index_lock, htrav]
      rw [heq] at hout
      rw [← Option.some.inj hout] at hl
      simp at hl
      exact hl.symm
    | some g =>
      cases hrt : read_timeout_env_var tv with
      | error e =>
        have heq : maybe_wait_for_index_lock (some dir) fs tv wres (a :: rest)
            = some ⟨Except.error e, false⟩ := by
          simp [maybe_wait_for_index_lock, htrav, hrt]
        rw [heq] at hout
        rw [← Option.some.inj hout] at hl
        simp at hl
      | ok n =>
        by_cases hfl : fs (g ++ [INDEX_LOCK_NAME]) = true
        · cases wres with
          | ok u =>
            have heq : maybe_wait_for_index_lock (some dir) fs tv (Except.ok u) (a :: rest)
                = some ⟨Except.ok ("git" :: rest), true⟩ := by
              simp [maybe_wait_for_index_lock, htrav, hrt, hfl]
            rw [heq] at hout
            rw [← Option.some.inj hout] at hl
            simp at hl
            exact hl.symm
          | error e =>
            have heq : maybe_wait_for_index_lock (some dir) fs tv (Except.error e) (a :: rest)
                = some ⟨Except.error e, true⟩ := by
              simp [maybe_wait_for_index_lock, htrav, hrt, hfl]
            rw [heq] at hout
            rw [← Option.some.inj hout] at hl
            simp at hl
        · have heq : maybe_wait_for_index_lock (some dir) fs tv wres (a :: rest)
              = some ⟨Except.ok ("git" :: rest), false⟩ := by
            simp [maybe_wait_for_index_lock, htrav, hrt, hfl]
          rw [heq] at hout
          rw [← Option.some.inj hout] at hl
          simp at hl
          exact hl.symm

/-- C8 witness: concrete fast-path run whose successful result is the
rewritten vector. -/
theorem argv_rewrite_witness :
    maybe_wait_for_index_lock (some []) (fun _ => false) none (Except.ok ()) ("prog" :: ["x"])
      = some ⟨Except.ok ["git", "x"], false⟩
    ∧ (["git", "x"] : List String) = "git" :: ["x"] :=
  ⟨by decide,
    (argv_rewrite (some []) (fun _ => false) none (Except.ok ()) "prog" ["x"]).1
      ⟨Except.ok ["git", "x"], false⟩ ["git", "x"] (by decide) rfl⟩

/-- C9 counterexample: an error delivered by the notification subsystem to
the watcher callback is dropped (only the event of the following Ok result
is forwarded), and the wait still ends in success — the error never reaches
the top level and never terminates the process, refuting the claim that
notification-subsystem errors during the wait are surfaced. -/
theorem notify_error_swallowed_cex :
    watcherCallbackSends [Except.error "notify backend failure", Except.ok removeLockEv]
      = [RecvOutcome.ok removeLockEv]
    ∧ wait lockP WatchSetup.ok none
        (watcherCallbackSends [Except.error "notify backend failure", Except.ok removeLockEv])
      = some (Except.ok ()) := by
  decide

/-- C9 amended: every error value returned by the functions of the wrapper
itself is surfaced by `main`, which prints it and exits with status 1 (no
retry); but error results delivered by the notification subsystem to the
watcher callback are silently dropped — the forwarded channel contents, and
hence the outcome of `wait`, are the same as if the errors had never been
delivered — in addition to the documented path-already-gone case. -/
theorem error_surface_policy :
    (∀ e, mainDispatch (Except.error e) = ProgResult.exit1 ("ERROR: " ++ e))
    ∧ (∀ raw, watcherCallbackSends raw
        = watcherCallbackSends (raw.filter (fun r => r.isOk)))
    ∧ (∀ p setup timeout raw,
        wait p setup timeout (watcherCallbackSends raw)
          = wait p setup timeout (watcherCallbackSends (raw.filter (fun r => r.isOk)))) := by
  have hdrop : ∀ raw, watcherCallbackSends raw
      = watcherCallbackSends (raw.filter (fun r => r.isOk)) := by
    intro raw
    induction raw with
    | nil => rfl
    | cons r rest ih =>
      cases r with
      | ok event =>
        simp only [watcherCallbackSends, List.filter_cons, List.filterMap_cons] at ih ⊢
        simp [Except.isOk, Except.toBool, List.filterMap_cons, ih]
      | error e =>
        simp only [watcherCallbackSends, List.filter_cons, List.filterMap_cons] at ih ⊢
        simp [Except.isOk, Except.toBool, List.filterMap_cons, ih]
  exact ⟨fun e => rfl, hdrop, fun p setup timeout raw => by rw [hdrop raw]⟩

/-- C10: on the empty argument vector the element-0 write of
`maybe_wait_for_index_lock` indexes out of bounds and the function panics
(modelled as `none`); on every vector of length at least 1 the write is in
bounds and the function returns a value (`isSome`) on every path. -/
theorem empty_args_out_of_bounds (cwd : Option Path) (fs : Fs) (tv : Option String)
    (wres : Except String Unit) :
    maybe_wait_for_index_lock cwd fs tv wres [] = none
    ∧ ∀ a rest, (maybe_wait_for_index_lock cwd fs tv wres (a :: rest)).isSome = true := by
  refine ⟨rfl, fun a rest => ?_⟩
  cases cwd with
  | none =>
    have heq : maybe_wait_for_index_lock none fs tv wres (a :: rest)
        = some ⟨Except.error "unable to read current directory.", false⟩ := by
      simp [maybe_wait_for_index_lock]
    rw [heq]
    rfl
  | some dir =>
    cases htrav : traverse_to_git_dir fs dir with
    | none =>
      have heq : maybe_wait_for_index_lock (some dir) fs tv wres (a :: rest)
          = some ⟨Except.ok ("git" :: rest), false⟩ := by
        simp [maybe_wait_for_index_lock, htrav]
      rw [heq]
      rfl
    | some g =>
      cases hrt : read_timeout_env_var tv with
      | error e =>
        have heq : maybe_wait_for_index_lock (some dir) fs tv wres (a :: rest)
            = some ⟨Except.error e, false⟩ := by
          simp [maybe_wait_for_index_lock, htrav, hrt]
        rw [heq]
        rfl
      | ok n =>
        by_cases hfl : fs (g ++ [INDEX_LOCK_NAME]) = true
        · cases wres with
          | ok u =>
            have heq : maybe_wait_for_index_lock (some dir) fs tv (Except.ok u) (a :: rest)
                = some ⟨Except.ok ("git" :: rest), true⟩ := by
              simp [maybe_wait_for_index_lock, htrav, hrt, hfl]
            rw [heq]
            rfl
          | error e =>
            have heq : maybe_wait_for_index_lock (some dir) fs tv (Except.error e) (a :: rest)
                = some ⟨Except.error e, true⟩ := by
              simp [maybe_wait_for_index_lock, htrav, hrt, hfl]
            rw [heq]
            rfl
        · have heq : maybe_wait_for_index_lock (some dir) fs tv wres (a :: rest)
              = some ⟨Except.ok ("git" :: rest), false⟩ := by
            simp [maybe_wait_for_index_lock, htrav, hrt, hfl]
          rw [heq]
          rfl

end GitWait
